import Mathlib

/-!
Verification of the task-exit path of TizenRT (`os/kernel/task/task_exit.c`).

The only source file of the repository is `task_exit.c`; the scheduler-queue
helpers it calls (`sched_removereadytorun`, `sched_addblocked`,
`sched_mergepending`, `task_terminate`, the heap-semaphore pair and
`this_task`) live elsewhere in the repository and are modelled here from the
specification and from the contracts documented in `task_exit.c` itself.

A task control block is identified by its pid.  The TCB store is a fixed
list of pids (`pids`) together with per-pid fields: a fixed priority
(`prio`), a scheduling state (`st`) and a preemption lock count (`lk`).
The three scheduler queues are lists of pids; `readytorun` is kept in
descending priority order with the head the running task.  `heapHeld`
models the heap allocator's semaphore, `fstatus` the status code the
task-termination finalizer will report, `ret` the captured return value,
and `dtcb`/`rtcb` the two local TCB pointers of `task_exit`.
-/

namespace TizenRTTaskExit

/-- Scheduling states used on this path (TSTATE_TASK_* of the source plus
the spec's TERMINATED for a finalized TCB). -/
inductive TState where
  | Invalid
  | Pending
  | ReadyToRun
  | Running
  | Inactive
  | Terminated
deriving DecidableEq, Repr

/-- The scheduler state operated on by task_exit. -/
@[ext] structure Kstate where
  pids : List Nat
  prio : Nat → Nat
  st : Nat → TState
  lk : Nat → Nat
  readytorun : List Nat
  pending : List Nat
  inactive : List Nat
  heapHeld : Bool
  fstatus : Int
  ret : Int
  dtcb : Nat
  rtcb : Nat

/-- Pointwise update of the scheduling-state field of one TCB. -/
def setSt (f : Nat → TState) (p : Nat) (v : TState) : Nat → TState :=
  fun q => if q = p then v else f q

/-- tcb->lockcount++ on one TCB. -/
def bump (f : Nat → Nat) (p : Nat) : Nat → Nat :=
  fun q => if q = p then f p + 1 else f q

/-- tcb->lockcount-- on one TCB. -/
def drop1 (f : Nat → Nat) (p : Nat) : Nat → Nat :=
  fun q => if q = p then f p - 1 else f q

/-- Modelled from the spec: `current_task()` / `this_task()` is not under
src/; per §4.1 it returns the TCB presently at the head of the
ready-to-run queue. -/
def this_task (s : Kstate) : Nat :=
  s.readytorun.headD 0

/-- Modelled from the spec: the heap allocator's `acquire_lock()`
(`mm_takesemaphore`) is not under src/; per §5 the only state it touches
here is the shared heap lock, taken on the fast no-suspend path. -/
def mm_takesemaphore (s : Kstate) : Kstate :=
  { s with heapHeld := true }

/-- Modelled from the spec: the heap allocator's `release_lock()`
(`mm_givesemaphore`) is not under src/; it releases the shared heap lock. -/
def mm_givesemaphore (s : Kstate) : Kstate :=
  { s with heapHeld := false }

/-- Modelled from the spec: `sched_removereadytorun` is not under src/.
It removes the given TCB from the ready-to-run queue; the caller's
documented contract in task_exit.c (lines 151-152: "sched_removereadytorun
will mark the task at the head of the ready-to-run with state ==
TSTATE_TASK_RUNNING") is followed for the new head's state, where §4.1 of
the spec instead says READY_TO_RUN; the removed TCB leaves the queue with
an invalid state. -/
def sched_removereadytorun (d : Nat) (s : Kstate) : Kstate :=
  let st1 :=
    match s.readytorun with
    | d0 :: nx :: _ => if d0 = d then setSt s.st nx TState.Running else s.st
    | _ => s.st
  { s with readytorun := s.readytorun.erase d, st := setSt st1 d TState.Invalid }

/-- Modelled from the spec: `sched_addblocked` is not under src/.  Per §4.1
it moves the TCB into the blocked set under the given reason; the only
blocked list this path uses is the INACTIVE one, appended at the tail. -/
def sched_addblocked (b : Nat) (ts : TState) (s : Kstate) : Kstate :=
  { s with inactive := s.inactive ++ [b], st := setSt s.st b ts }

/-- Modelled from the spec: the Task-Termination Finalizer
(`task_terminate(pid, nonblocking)`) is not under src/.  Per §2/§3 it
reclaims the TCB: it unlinks it from the blocked list holding it, retires
its scheduling state and reports a status code (modelled by the state's
`fstatus` field).  The nonblocking flag suppresses exit hooks, which are
out of scope and have no scheduler-state effect. -/
def task_terminate (pid : Nat) (_nonblocking : Bool) (s : Kstate) : Int × Kstate :=
  (s.fstatus,
   { s with inactive := s.inactive.erase pid, st := setSt s.st pid TState.Terminated })

/-- Insert a pid into a priority-ordered pid list: it goes immediately
before the first entry of strictly lower priority. -/
def insertReady (f : Nat → Nat) (p : Nat) : List Nat → List Nat
  | [] => [p]
  | q :: qs => if f p > f q then p :: q :: qs else q :: insertReady f p qs

/-- Merge one pending TCB into the ready-to-run queue by priority; a TCB
inserted at the head becomes the running task and the displaced head
reverts to READY_TO_RUN, otherwise the merged TCB is READY_TO_RUN. -/
def mergeOne (s : Kstate) (p : Nat) : Kstate :=
  match s.readytorun with
  | [] => { s with readytorun := [p], st := setSt s.st p TState.ReadyToRun }
  | h :: t =>
    if s.prio p > s.prio h then
      { s with readytorun := p :: h :: t,
               st := setSt (setSt s.st h TState.ReadyToRun) p TState.Running }
    else
      { s with readytorun := h :: insertReady s.prio p t,
               st := setSt s.st p TState.ReadyToRun }

/-- Modelled from the spec: `sched_mergepending` is not under src/.  Per
§4.1 it moves every TCB of the pending set into the ready-to-run queue
preserving priority order and empties the pending set; per the §8
scenario, a merged task that outranks the head becomes the running task
and the displaced head reverts to READY_TO_RUN. -/
def sched_mergepending (s : Kstate) : Kstate :=
  { s.pending.foldl mergeOne s with pending := [] }

/-! The body of `task_exit` (task_exit.c lines 125-199), one definition per
statement; the tracing hooks are out of scope and touch no scheduler
state. -/

/-- dtcb = this_task()  (line 127). -/
def te0 (s : Kstate) : Kstate :=
  { s with dtcb := this_task s }

/-- dtcb->lockcount++  (line 143). -/
def te1 (s : Kstate) : Kstate :=
  let t := te0 s
  { t with lk := bump t.lk t.dtcb }

/-- mm_takesemaphore(heap)  (line 144). -/
def te2 (s : Kstate) : Kstate :=
  mm_takesemaphore (te1 s)

/-- mm_givesemaphore(heap)  (line 145). -/
def te3 (s : Kstate) : Kstate :=
  mm_givesemaphore (te2 s)

/-- (void)sched_removereadytorun(dtcb)  (line 155). -/
def te4 (s : Kstate) : Kstate :=
  let t := te3 s
  sched_removereadytorun t.dtcb t

/-- rtcb = this_task()  (line 156). -/
def te5 (s : Kstate) : Kstate :=
  let t := te4 s
  { t with rtcb := this_task t }

/-- rtcb->lockcount++  (line 167). -/
def te6 (s : Kstate) : Kstate :=
  let t := te5 s
  { t with lk := bump t.lk t.rtcb }

/-- rtcb->task_state = TSTATE_TASK_READYTORUN  (line 168). -/
def te7 (s : Kstate) : Kstate :=
  let t := te6 s
  { t with st := setSt t.st t.rtcb TState.ReadyToRun }

/-- sched_addblocked(dtcb, TSTATE_TASK_INACTIVE)  (line 176). -/
def te8 (s : Kstate) : Kstate :=
  let t := te7 s
  sched_addblocked t.dtcb TState.Inactive t

/-- ret = task_terminate(dtcb->pid, true)  (line 177). -/
def te9 (s : Kstate) : Kstate :=
  let t := te8 s
  let r := task_terminate t.dtcb true t
  { r.2 with ret := r.1 }

/-- rtcb->task_state = TSTATE_TASK_RUNNING  (line 178). -/
def te10 (s : Kstate) : Kstate :=
  let t := te9 s
  { t with st := setSt t.st t.rtcb TState.Running }

/-- if (g_pendingtasks.head) sched_mergepending()  (lines 184-186). -/
def te11 (s : Kstate) : Kstate :=
  let t := te10 s
  if t.pending = [] then t else sched_mergepending t

/-- rtcb->lockcount--  (line 196). -/
def te12 (s : Kstate) : Kstate :=
  let t := te11 s
  { t with lk := drop1 t.lk t.rtcb }

/-- int task_exit(void): the whole routine; returns ret and the final
scheduler state. -/
def task_exit (s : Kstate) : Int × Kstate :=
  ((te12 s).ret, te12 s)

/-- Well-formedness of a scheduler state: queues are duplicate-free, drawn
from the TCB store, and pairwise disjoint (invariant I1). -/
def WF (s : Kstate) : Prop :=
  s.pids.Nodup ∧ s.readytorun.Nodup ∧ s.pending.Nodup ∧ s.inactive.Nodup ∧
  (∀ p ∈ s.readytorun, p ∈ s.pids) ∧
  (∀ p ∈ s.pending, p ∈ s.pids) ∧
  (∀ p ∈ s.inactive, p ∈ s.pids) ∧
  (∀ p ∈ s.readytorun, p ∉ s.pending) ∧
  (∀ p ∈ s.readytorun, p ∉ s.inactive) ∧
  (∀ p ∈ s.pending, p ∉ s.inactive)

/-- The ready-to-run queue is in descending priority order. -/
def prioSorted (f : Nat → Nat) (l : List Nat) : Prop :=
  List.Pairwise (fun a b => f b ≤ f a) l

/-- Concrete priorities for the §8 scenario: A = 1 (priority 5),
B = 2 (priority 3), C = 3 (priority 10). -/
def exPrio : Nat → Nat :=
  fun p => if p = 1 then 5 else if p = 2 then 3 else if p = 3 then 10 else 0

/-- Concrete entry scheduling states for the §8 scenario: A running,
C pending, B ready. -/
def exStates : Nat → TState :=
  fun p => if p = 1 then TState.Running
    else if p = 3 then TState.Pending else TState.ReadyToRun

/-- The §8 scenario entry state: ready queue = [A, B], pending = [C]. -/
def exS : Kstate :=
  { pids := [1, 2, 3], prio := exPrio, st := exStates, lk := fun _ => 0,
    readytorun := [1, 2], pending := [3], inactive := [],
    heapHeld := false, fstatus := 0, ret := 0, dtcb := 0, rtcb := 0 }

/-- The §8 scenario entry state with a failing finalizer (status -1). -/
def exSerr : Kstate :=
  { exS with fstatus := -1 }

/-! Lemmas on the priority insertion and the pending merge. -/

lemma mem_insertReady (f : Nat → Nat) (p x : Nat) (l : List Nat) :
    x ∈ insertReady f p l ↔ x = p ∨ x ∈ l := by
  induction l with
  | nil => simp [insertReady]
  | cons q qs ih =>
    unfold insertReady
    by_cases hc : f p > f q
    · simp [hc]
    · simp only [if_neg hc, List.mem_cons, ih]
      tauto

lemma pairwise_insertReady (f : Nat → Nat) (p : Nat) (l : List Nat)
    (h : List.Pairwise (fun a b => f b ≤ f a) l) :
    List.Pairwise (fun a b => f b ≤ f a) (insertReady f p l) := by
  induction l with
  | nil => simp [insertReady]
  | cons q qs ih =>
    rw [List.pairwise_cons] at h
    obtain ⟨hq, hqs⟩ := h
    unfold insertReady
    by_cases hc : f p > f q
    · simp only [if_pos hc]
      refine List.Pairwise.cons ?_ (List.Pairwise.cons hq hqs)
      intro b hb
      rcases List.mem_cons.mp hb with hb | hb
      · exact hb ▸ Nat.le_of_lt hc
      · exact Nat.le_trans (hq b hb) (Nat.le_of_lt hc)
    · simp only [if_neg hc]
      refine List.Pairwise.cons ?_ (ih hqs)
      intro b hb
      rcases (mem_insertReady f p b qs).mp hb with hb | hb
      · exact hb ▸ Nat.le_of_not_lt hc
      · exact hq b hb

lemma mergeOne_frame (s : Kstate) (p : Nat) :
    (mergeOne s p).pids = s.pids ∧ (mergeOne s p).prio = s.prio ∧
    (mergeOne s p).lk = s.lk ∧ (mergeOne s p).pending = s.pending ∧
    (mergeOne s p).inactive = s.inactive ∧ (mergeOne s p).heapHeld = s.heapHeld ∧
    (mergeOne s p).ret = s.ret ∧ (mergeOne s p).fstatus = s.fstatus ∧
    (mergeOne s p).rtcb = s.rtcb ∧ (mergeOne s p).dtcb = s.dtcb := by
  cases hm : s.readytorun with
  | nil => simp [mergeOne, hm]
  | cons h t => by_cases hc : s.prio p > s.prio h <;> simp [mergeOne, hm, hc]

lemma foldl_mergeOne_frame (P : List Nat) : ∀ s : Kstate,
    (P.foldl mergeOne s).pids = s.pids ∧ (P.foldl mergeOne s).prio = s.prio ∧
    (P.foldl mergeOne s).lk = s.lk ∧ (P.foldl mergeOne s).pending = s.pending ∧
    (P.foldl mergeOne s).inactive = s.inactive ∧
    (P.foldl mergeOne s).heapHeld = s.heapHeld ∧
    (P.foldl mergeOne s).ret = s.ret ∧ (P.foldl mergeOne s).fstatus = s.fstatus ∧
    (P.foldl mergeOne s).rtcb = s.rtcb ∧ (P.foldl mergeOne s).dtcb = s.dtcb := by
  induction P with
  | nil => intro s; simp
  | cons p P ih =>
    intro s
    simp only [List.foldl_cons]
    obtain ⟨a1, a2, a3, a4, a5, a6, a7, a8, a9, a10⟩ := mergeOne_frame s p
    obtain ⟨b1, b2, b3, b4, b5, b6, b7, b8, b9, b10⟩ := ih (mergeOne s p)
    exact ⟨b1.trans a1, b2.trans a2, b3.trans a3, b4.trans a4, b5.trans a5,
      b6.trans a6, b7.trans a7, b8.trans a8, b9.trans a9, b10.trans a10⟩

lemma mergeOne_ready_mem (s : Kstate) (p x : Nat) :
    x ∈ (mergeOne s p).readytorun ↔ x = p ∨ x ∈ s.readytorun := by
  cases hm : s.readytorun with
  | nil => simp [mergeOne, hm]
  | cons h t =>
    by_cases hc : s.prio p > s.prio h
    · simp [mergeOne, hm, hc]
    · simp only [mergeOne, hm, if_neg hc, List.mem_cons, mem_insertReady]
      tauto

lemma foldl_mergeOne_ready_mem (P : List Nat) : ∀ (s : Kstate) (x : Nat),
    (x ∈ (P.foldl mergeOne s).readytorun ↔ x ∈ P ∨ x ∈ s.readytorun) := by
  induction P with
  | nil => intro s x; simp
  | cons p P ih =>
    intro s x
    simp only [List.foldl_cons, ih, mergeOne_ready_mem, List.mem_cons]
    tauto

lemma mergeOne_st_frame (s : Kstate) (p q : Nat) (hq : q ≠ p)
    (hr : q ∉ s.readytorun) : (mergeOne s p).st q = s.st q := by
  cases hm : s.readytorun with
  | nil => simp [mergeOne, hm, setSt, hq]
  | cons h t =>
    have hqh : q ≠ h := by
      rw [hm] at hr
      intro e
      exact hr (e ▸ List.mem_cons_self h t)
    by_cases hc : s.prio p > s.prio h <;> simp [mergeOne, hm, hc, setSt, hq, hqh]

lemma foldl_mergeOne_st_frame (P : List Nat) : ∀ (s : Kstate) (q : Nat),
    q ∉ P → q ∉ s.readytorun → (P.foldl mergeOne s).st q = s.st q := by
  induction P with
  | nil => intro s q _ _; simp
  | cons p P ih =>
    intro s q hqP hr
    have hqp : q ≠ p := by
      intro e
      exact hqP (e ▸ List.mem_cons_self p P)
    have hr2 : q ∉ (mergeOne s p).readytorun := by
      rw [mergeOne_ready_mem]
      push_neg
      exact ⟨hqp, hr⟩
    simp only [List.foldl_cons]
    rw [ih (mergeOne s p) q (fun hm => hqP (List.mem_cons_of_mem p hm)) hr2,
      mergeOne_st_frame s p q hqp hr]

lemma mergeOne_sorted (s : Kstate) (p : Nat)
    (hs : prioSorted s.prio s.readytorun) :
    prioSorted (mergeOne s p).prio (mergeOne s p).readytorun := by
  rw [(mergeOne_frame s p).2.1]
  cases hm : s.readytorun with
  | nil => simp [mergeOne, hm, prioSorted]
  | cons h t =>
    rw [hm] at hs
    unfold prioSorted at hs ⊢
    obtain ⟨hh, ht⟩ := List.pairwise_cons.mp hs
    by_cases hc : s.prio p > s.prio h
    · simp only [mergeOne, hm, if_pos hc]
      refine List.Pairwise.cons ?_ hs
      intro b hb
      rcases List.mem_cons.mp hb with hb | hb
      · exact hb ▸ Nat.le_of_lt hc
      · exact Nat.le_trans (hh b hb) (Nat.le_of_lt hc)
    · simp only [mergeOne, hm, if_neg hc]
      refine List.Pairwise.cons ?_ (pairwise_insertReady s.prio p t ht)
      intro b hb
      rcases (mem_insertReady s.prio p b t).mp hb with hb | hb
      · exact hb ▸ Nat.le_of_not_lt hc
      · exact hh b hb

lemma foldl_mergeOne_sorted (P : List Nat) : ∀ s : Kstate,
    prioSorted s.prio s.readytorun →
    prioSorted (P.foldl mergeOne s).prio (P.foldl mergeOne s).readytorun := by
  induction P with
  | nil => intro s hs; exact hs
  | cons p P ih =>
    intro s hs
    simp only [List.foldl_cons]
    exact ih (mergeOne s p) (mergeOne_sorted s p hs)

lemma mergeOne_inv (s : Kstate) (p h : Nat) (t : List Nat)
    (hr : s.readytorun = h :: t) (hpr : p ∉ s.readytorun)
    (hp : p ∈ s.pids) (hhp : h ∈ s.pids)
    (hh : s.st h = TState.Running)
    (ho : ∀ q ∈ s.pids, q ≠ h → s.st q ≠ TState.Running) :
    ∃ h2 t2, (mergeOne s p).readytorun = h2 :: t2 ∧ h2 ∈ s.pids ∧
      (mergeOne s p).st h2 = TState.Running ∧
      (∀ q ∈ s.pids, q ≠ h2 → (mergeOne s p).st q ≠ TState.Running) := by
  have hph : p ≠ h := by
    rw [hr] at hpr
    intro e
    exact hpr (e ▸ List.mem_cons_self h t)
  by_cases hc : s.prio p > s.prio h
  · refine ⟨p, h :: t, by simp [mergeOne, hr, hc], hp, by simp [mergeOne, hr, hc, setSt], ?_⟩
    intro q hq hqp
    simp only [mergeOne, hr, if_pos hc]
    by_cases hqh : q = h
    · simp [setSt, hqp, hqh, hph.symm]
    · simp only [setSt, if_neg hqp, if_neg hqh]
      exact ho q hq hqh
  · refine ⟨h, insertReady s.prio p t, by simp [mergeOne, hr, hc], hhp,
      by simp [mergeOne, hr, hc, setSt, hph.symm, hh], ?_⟩
    intro q hq hqh
    simp only [mergeOne, hr, if_neg hc]
    by_cases hqp : q = p
    · simp [setSt, hqp]
    · simp only [setSt, if_neg hqp]
      exact ho q hq hqh

lemma foldl_mergeOne_inv (P : List Nat) : ∀ (s : Kstate) (h : Nat) (t : List Nat),
    s.readytorun = h :: t → h ∈ s.pids →
    s.st h = TState.Running →
    (∀ q ∈ s.pids, q ≠ h → s.st q ≠ TState.Running) →
    (∀ p ∈ P, p ∈ s.pids) → (∀ p ∈ P, p ∉ s.readytorun) → P.Nodup →
    ∃ h2 t2, (P.foldl mergeOne s).readytorun = h2 :: t2 ∧
      h2 ∈ (P.foldl mergeOne s).pids ∧
      (P.foldl mergeOne s).st h2 = TState.Running ∧
      (∀ q ∈ (P.foldl mergeOne s).pids, q ≠ h2 →
        (P.foldl mergeOne s).st q ≠ TState.Running) := by
  induction P with
  | nil =>
    intro s h t hr hhp hh ho _ _ _
    exact ⟨h, t, hr, hhp, hh, ho⟩
  | cons p P ih =>
    intro s h t hr hhp hh ho hPp hPr hnd
    simp only [List.foldl_cons]
    obtain ⟨hpP, hPnd⟩ := List.nodup_cons.mp hnd
    obtain ⟨h2, t2, h2r, h2p, h2run, h2o⟩ :=
      mergeOne_inv s p h t hr (hPr p (List.mem_cons_self p P))
        (hPp p (List.mem_cons_self p P)) hhp hh ho
    have hpids : (mergeOne s p).pids = s.pids := (mergeOne_frame s p).1
    refine ih (mergeOne s p) h2 t2 h2r (by rw [hpids]; exact h2p) h2run
      (by rw [hpids]; exact h2o) ?_ ?_ hPnd
    · intro q hq
      rw [hpids]
      exact hPp q (List.mem_cons_of_mem p hq)
    · intro q hq
      rw [mergeOne_ready_mem]
      push_neg
      refine ⟨?_, hPr q (List.mem_cons_of_mem p hq)⟩
      intro e
      exact hpP (e ▸ hq)

/-! Characterization of the intermediate states of task_exit. -/

lemma te10_eq (s : Kstate) (d n : Nat) (rest : List Nat)
    (hr : s.readytorun = d :: n :: rest) (hdn : d ≠ n) (hdi : d ∉ s.inactive) :
    te10 s = { s with
      dtcb := d, rtcb := n,
      readytorun := n :: rest,
      heapHeld := false,
      ret := s.fstatus,
      st := fun q => if q = n then TState.Running
        else if q = d then TState.Terminated else s.st q,
      lk := fun q => if q = d then s.lk d + 1
        else if q = n then s.lk n + 1 else s.lk q } := by
  unfold te10 te9 te8 te7 te6 te5 te4 te3 te2 te1 te0 this_task mm_takesemaphore
    mm_givesemaphore sched_removereadytorun sched_addblocked task_terminate
  simp only [hr, List.headD_cons, List.erase_cons_head,
    List.erase_append_right [d] hdi]
  ext q
  · rfl
  · rfl
  · simp only [setSt]
    by_cases hqn : q = n
    · simp [hqn, Ne.symm hdn]
    · by_cases hqd : q = d <;> simp [setSt, hqn, hqd]
  · simp only [bump]
    by_cases hqd : q = d
    · simp [hqd, hdn]
    · by_cases hqn : q = n <;> simp [hqd, hqn, Ne.symm hdn]
  · rfl
  · rfl
  · simp [List.erase_cons_head, List.append_nil]
  · rfl
  · rfl
  · rfl
  · rfl
  · rfl

lemma te10_proj (s : Kstate) :
    (te10 s).pending = s.pending ∧ (te10 s).pids = s.pids ∧
    (te10 s).prio = s.prio ∧ (te10 s).fstatus = s.fstatus ∧
    (te10 s).ret = s.fstatus ∧ (te10 s).heapHeld = false := by
  unfold te10 te9 te8 te7 te6 te5 te4 te3 te2 te1 te0 this_task mm_takesemaphore
    mm_givesemaphore sched_removereadytorun sched_addblocked task_terminate
  simp

lemma te11_nil (s : Kstate) (h : s.pending = []) : te11 s = te10 s := by
  unfold te11
  rw [if_pos ((te10_proj s).1.trans h)]

lemma te11_merge (s : Kstate) (h : s.pending ≠ []) :
    te11 s = sched_mergepending (te10 s) := by
  unfold te11
  rw [if_neg (fun e => h ((te10_proj s).1.symm.trans e))]

lemma mergepending_proj (s : Kstate) :
    (sched_mergepending s).pending = [] ∧
    (sched_mergepending s).pids = s.pids ∧
    (sched_mergepending s).prio = s.prio ∧
    (sched_mergepending s).lk = s.lk ∧
    (sched_mergepending s).inactive = s.inactive ∧
    (sched_mergepending s).ret = s.ret ∧
    (sched_mergepending s).heapHeld = s.heapHeld ∧
    (sched_mergepending s).rtcb = s.rtcb ∧
    (sched_mergepending s).readytorun = (s.pending.foldl mergeOne s).readytorun ∧
    (sched_mergepending s).st = (s.pending.foldl mergeOne s).st := by
  obtain ⟨h1, h2, h3, h4, h5, h6, h7, h8, h9, h10⟩ := foldl_mergeOne_frame s.pending s
  unfold sched_mergepending
  exact ⟨rfl, h1, h2, h3, h5, h7, h6, h9, rfl, rfl⟩

lemma te12_proj (s : Kstate) :
    (te12 s).readytorun = (te11 s).readytorun ∧ (te12 s).st = (te11 s).st ∧
    (te12 s).pending = (te11 s).pending ∧ (te12 s).inactive = (te11 s).inactive ∧
    (te12 s).pids = (te11 s).pids ∧ (te12 s).ret = (te11 s).ret ∧
    (te12 s).prio = (te11 s).prio ∧ (te12 s).heapHeld = (te11 s).heapHeld ∧
    (te12 s).lk = drop1 (te11 s).lk (te11 s).rtcb ∧
    (te12 s).rtcb = (te11 s).rtcb := by
  unfold te12
  simp

lemma WF_head_facts (s : Kstate) (d n : Nat) (rest : List Nat)
    (hr : s.readytorun = d :: n :: rest) (hwf : WF s) :
    d ≠ n ∧ d ∉ n :: rest ∧ d ∈ s.pids ∧ n ∈ s.pids ∧
    d ∉ s.pending ∧ d ∉ s.inactive ∧
    (∀ p ∈ s.pending, p ∉ s.readytorun) ∧ (∀ p ∈ s.pending, p ∈ s.pids) ∧
    s.pending.Nodup := by
  obtain ⟨_, hnr, hnpend, _, hrp, hpp, _, hrP, hrI, _⟩ := hwf
  have hdmem : d ∈ s.readytorun := by
    rw [hr]
    exact List.mem_cons_self d (n :: rest)
  have hnmem : n ∈ s.readytorun := by
    rw [hr]
    exact List.mem_cons_of_mem d (List.mem_cons_self n rest)
  rw [hr] at hnr
  obtain ⟨hdni, _⟩ := List.nodup_cons.mp hnr
  refine ⟨?_, hdni, hrp d hdmem, hrp n hnmem, hrP d hdmem, hrI d hdmem, ?_, hpp, hnpend⟩
  · intro e
    exact hdni (e ▸ List.mem_cons_self n rest)
  · intro p hp hpr
    exact hrP p hpr hp

lemma te12_lk_n (s : Kstate) (d n : Nat) (rest : List Nat)
    (hr : s.readytorun = d :: n :: rest) (hdn : d ≠ n) (hdi : d ∉ s.inactive) :
    (te12 s).lk n = s.lk n := by
  have h10 := te10_eq s d n rest hr hdn hdi
  have hlk : (te11 s).lk = (te10 s).lk ∧ (te11 s).rtcb = (te10 s).rtcb := by
    by_cases hp : s.pending = []
    · rw [te11_nil s hp]
      exact ⟨rfl, rfl⟩
    · rw [te11_merge s hp]
      exact ⟨(mergepending_proj _).2.2.2.1, (mergepending_proj _).2.2.2.2.2.2.2.1⟩
  rw [(te12_proj s).2.2.2.2.2.2.2.2.1, hlk.1, hlk.2, h10]
  simp [drop1, Ne.symm hdn]

/-! The claims. -/

/-- C7: on the concrete scenario with ready queue = [A (running), B] and
pending = [C with priority 10 outranking B], after A exits the final
ready-to-run head is C with scheduling state RUNNING, B remains
READY_TO_RUN as the second entry, and A is removed entirely. -/
theorem task_exit_scenario_pending_outranks :
    (task_exit exS).2.readytorun = [3, 2] ∧
    (task_exit exS).2.st 3 = TState.Running ∧
    (task_exit exS).2.st 2 = TState.ReadyToRun ∧
    1 ∉ (task_exit exS).2.readytorun ∧
    1 ∉ (task_exit exS).2.pending ∧
    1 ∉ (task_exit exS).2.inactive := by
  decide

/-- C6 is refuted: on a concrete state with ready queue [1, 2], removing
the head via sched_removereadytorun leaves the new head 2 with state
RUNNING, not READY_TO_RUN as the claim states. -/
theorem removereadytorun_sets_running_cex :
    (sched_removereadytorun 1 exS).st 2 = TState.Running ∧
    ¬(sched_removereadytorun 1 exS).st 2 = TState.ReadyToRun := by
  decide

/-- C6 (amended): when sched_removereadytorun removes the head of the
ready-to-run queue it sets the new head's scheduling state to RUNNING (per
the contract documented in task_exit.c lines 151-152); the caller
task_exit itself immediately demotes the new head to READY_TO_RUN
(line 168) and is responsible for promoting it back to RUNNING later
(line 178). -/
theorem removereadytorun_promotes_caller_demotes (s : Kstate) (d n : Nat)
    (rest : List Nat) (hr : s.readytorun = d :: n :: rest) (hdn : d ≠ n) :
    (sched_removereadytorun d s).st n = TState.Running ∧
    (te7 s).st n = TState.ReadyToRun ∧
    (te10 s).st n = TState.Running := by
  refine ⟨?_, ?_, ?_⟩
  · simp [sched_removereadytorun, hr, setSt, Ne.symm hdn]
  · unfold te7 te6 te5 te4 te3 te2 te1 te0 this_task mm_takesemaphore
      mm_givesemaphore sched_removereadytorun
    simp [hr, setSt, List.erase_cons_head, List.headD_cons]
  · unfold te10 te9 te8 te7 te6 te5 te4 te3 te2 te1 te0 this_task
      mm_takesemaphore mm_givesemaphore sched_removereadytorun
      sched_addblocked task_terminate
    simp [hr, setSt, List.erase_cons_head, List.headD_cons, Ne.symm hdn]

/-- Witness for the amended C6 at the concrete scenario state. -/
theorem removereadytorun_promotes_caller_demotes_witness :
    exS.readytorun = 1 :: 2 :: [] ∧ (1 : Nat) ≠ 2 ∧
    ((sched_removereadytorun 1 exS).st 2 = TState.Running ∧
     (te7 exS).st 2 = TState.ReadyToRun ∧
     (te10 exS).st 2 = TState.Running) :=
  ⟨rfl, by decide, removereadytorun_promotes_caller_demotes exS 1 2 [] rfl (by decide)⟩

/-- C3: the preemption lock count of the TCB promoted after the removal
step (the new head n) nets to zero across task_exit: it is incremented
exactly once (line 167, on rtcb = n) and the final direct decrement
(line 196) hits that same TCB, so its count returns to the entry value
regardless of whether the pending merge changed the ready head. -/
theorem task_exit_lockcount_net_zero (s : Kstate) (d n : Nat)
    (rest : List Nat) (hr : s.readytorun = d :: n :: rest) (hwf : WF s) :
    (te5 s).rtcb = n ∧
    (te6 s).lk n = s.lk n + 1 ∧
    (task_exit s).2.lk n = s.lk n := by
  obtain ⟨hdn, _, _, _, _, hdi, _, _, _⟩ := WF_head_facts s d n rest hr hwf
  refine ⟨?_, ?_, ?_⟩
  · unfold te5 te4 te3 te2 te1 te0 this_task mm_takesemaphore
      mm_givesemaphore sched_removereadytorun
    simp [hr, List.erase_cons_head, List.headD_cons]
  · unfold te6 te5 te4 te3 te2 te1 te0 this_task mm_takesemaphore
      mm_givesemaphore sched_removereadytorun
    simp [hr, List.erase_cons_head, List.headD_cons, bump, Ne.symm hdn]
  · exact te12_lk_n s d n rest hr hdn hdi

/-- Witness for C3 at the concrete scenario state. -/
theorem task_exit_lockcount_net_zero_witness :
    exS.readytorun = 1 :: 2 :: [] ∧ WF exS ∧
    ((te5 exS).rtcb = 2 ∧
     (te6 exS).lk 2 = exS.lk 2 + 1 ∧
     (task_exit exS).2.lk 2 = exS.lk 2) :=
  ⟨rfl, by unfold WF; decide,
    task_exit_lockcount_net_zero exS 1 2 [] rfl (by unfold WF; decide)⟩

lemma unlink_core (s : Kstate) (d n : Nat) (rest : List Nat)
    (hr : s.readytorun = d :: n :: rest) (hwf : WF s) :
    d ∉ (te12 s).readytorun ∧ d ∉ (te12 s).pending ∧
    d ∉ (te12 s).inactive ∧ (te12 s).st d = TState.Terminated := by
  obtain ⟨hdn, hdni, _, _, hdp, hdi, _, _, _⟩ := WF_head_facts s d n rest hr hwf
  have h10 := te10_eq s d n rest hr hdn hdi
  have hready10 : (te10 s).readytorun = n :: rest := by rw [h10]
  have hst10 : (te10 s).st d = TState.Terminated := by
    rw [h10]
    simp [hdn]
  have hinact10 : (te10 s).inactive = s.inactive := by rw [h10]
  have hpend10 : (te10 s).pending = s.pending := (te10_proj s).1
  have key : d ∉ (te11 s).readytorun ∧ d ∉ (te11 s).pending ∧
      d ∉ (te11 s).inactive ∧ (te11 s).st d = TState.Terminated := by
    by_cases hp : s.pending = []
    · rw [te11_nil s hp, hready10, hpend10, hinact10, hp]
      exact ⟨hdni, by simp, hdi, hst10⟩
    · rw [te11_merge s hp]
      have mp := mergepending_proj (te10 s)
      refine ⟨?_, ?_, ?_, ?_⟩
      · rw [mp.2.2.2.2.2.2.2.2.1]
        intro hmem
        rcases (foldl_mergeOne_ready_mem _ _ _).mp hmem with h | h
        · rw [hpend10] at h
          exact hdp h
        · rw [hready10] at h
          exact hdni h
      · rw [mp.1]
        simp
      · rw [mp.2.2.2.2.1, hinact10]
        exact hdi
      · rw [mp.2.2.2.2.2.2.2.2.2,
          foldl_mergeOne_st_frame (te10 s).pending (te10 s) d
            (by rw [hpend10]; exact hdp) (by rw [hready10]; exact hdni)]
        exact hst10
  exact ⟨by rw [(te12_proj s).1]; exact key.1,
    by rw [(te12_proj s).2.2.1]; exact key.2.1,
    by rw [(te12_proj s).2.2.2.1]; exact key.2.2.1,
    by rw [(te12_proj s).2.1]; exact key.2.2.2⟩

/-- C2: after task_exit returns, the exiting TCB (the ready-to-run head d
at entry) is a member of none of the ready-to-run, pending or blocked
(inactive) queues; it has been handed to the finalizer, which left it
TERMINATED. -/
theorem task_exit_unlinks_exiting (s : Kstate) (d n : Nat) (rest : List Nat)
    (hr : s.readytorun = d :: n :: rest) (hwf : WF s) :
    d ∉ (task_exit s).2.readytorun ∧ d ∉ (task_exit s).2.pending ∧
    d ∉ (task_exit s).2.inactive ∧ (task_exit s).2.st d = TState.Terminated :=
  unlink_core s d n rest hr hwf

/-- Witness for C2 at the concrete scenario state. -/
theorem task_exit_unlinks_exiting_witness :
    exS.readytorun = 1 :: 2 :: [] ∧ WF exS ∧
    (1 ∉ (task_exit exS).2.readytorun ∧ 1 ∉ (task_exit exS).2.pending ∧
     1 ∉ (task_exit exS).2.inactive ∧
     (task_exit exS).2.st 1 = TState.Terminated) :=
  ⟨rfl, by unfold WF; decide,
    task_exit_unlinks_exiting exS 1 2 [] rfl (by unfold WF; decide)⟩

/-- C5: if the finalizer reports status E, task_exit returns exactly E;
the promotion, pending merge and final lock decrement still execute, and
the queue postconditions (exiting TCB unlinked everywhere, pending
drained, net-zero lock count on the promoted TCB) still hold. -/
theorem task_exit_propagates_finalizer_status (s : Kstate) (E : Int)
    (d n : Nat) (rest : List Nat)
    (hr : s.readytorun = d :: n :: rest) (hwf : WF s)
    (hE : s.fstatus = E) :
    (task_exit s).1 = E ∧
    (d ∉ (task_exit s).2.readytorun ∧ d ∉ (task_exit s).2.pending ∧
     d ∉ (task_exit s).2.inactive) ∧
    (s.pending ≠ [] → (task_exit s).2.pending = []) ∧
    (task_exit s).2.lk n = s.lk n := by
  obtain ⟨hdn, _, _, _, _, hdi, _, _, _⟩ := WF_head_facts s d n rest hr hwf
  obtain ⟨u1, u2, u3, _⟩ := unlink_core s d n rest hr hwf
  refine ⟨?_, ⟨u1, u2, u3⟩, ?_, te12_lk_n s d n rest hr hdn hdi⟩
  · show (te12 s).ret = E
    rw [(te12_proj s).2.2.2.2.2.1]
    by_cases hp : s.pending = []
    · rw [te11_nil s hp, (te10_proj s).2.2.2.2.1, hE]
    · rw [te11_merge s hp, (mergepending_proj _).2.2.2.2.2.1,
        (te10_proj s).2.2.2.2.1, hE]
  · intro hp
    show (te12 s).pending = []
    rw [(te12_proj s).2.2.1, te11_merge s hp]
    exact (mergepending_proj _).1

/-- Witness for C5 at the scenario state with a failing finalizer. -/
theorem task_exit_propagates_finalizer_status_witness :
    exSerr.readytorun = 1 :: 2 :: [] ∧ WF exSerr ∧ exSerr.fstatus = -1 ∧
    ((task_exit exSerr).1 = -1 ∧
     (1 ∉ (task_exit exSerr).2.readytorun ∧ 1 ∉ (task_exit exSerr).2.pending ∧
      1 ∉ (task_exit exSerr).2.inactive) ∧
     (exSerr.pending ≠ [] → (task_exit exSerr).2.pending = []) ∧
     (task_exit exSerr).2.lk 2 = exSerr.lk 2) :=
  ⟨rfl, by unfold WF; decide, rfl,
    task_exit_propagates_finalizer_status exSerr (-1) 1 2 [] rfl
      (by unfold WF; decide) rfl⟩

/-- C4: with a non-empty pending set P at entry, sched_mergepending is
invoked on exactly that set, and after task_exit the pending set is empty,
every member of P is in the ready-to-run queue, and the ready-to-run
queue is in priority order. -/
theorem task_exit_drains_pending (s : Kstate) (d n : Nat) (rest : List Nat)
    (hr : s.readytorun = d :: n :: rest) (hwf : WF s)
    (hsort : prioSorted s.prio s.readytorun) (hpend : s.pending ≠ []) :
    te11 s = sched_mergepending (te10 s) ∧
    (te10 s).pending = s.pending ∧
    (task_exit s).2.pending = [] ∧
    (∀ p ∈ s.pending, p ∈ (task_exit s).2.readytorun) ∧
    prioSorted s.prio (task_exit s).2.readytorun := by
  obtain ⟨hdn, _, _, _, _, hdi, _, _, _⟩ := WF_head_facts s d n rest hr hwf
  have h10 := te10_eq s d n rest hr hdn hdi
  have hready10 : (te10 s).readytorun = n :: rest := by rw [h10]
  have hpend10 : (te10 s).pending = s.pending := (te10_proj s).1
  have hprio10 : (te10 s).prio = s.prio := (te10_proj s).2.2.1
  refine ⟨te11_merge s hpend, hpend10, ?_, ?_, ?_⟩
  · show (te12 s).pending = []
    rw [(te12_proj s).2.2.1, te11_merge s hpend]
    exact (mergepending_proj _).1
  · intro p hp
    show p ∈ (te12 s).readytorun
    rw [(te12_proj s).1, te11_merge s hpend,
      (mergepending_proj _).2.2.2.2.2.2.2.2.1]
    exact (foldl_mergeOne_ready_mem _ _ _).mpr (Or.inl (by rw [hpend10]; exact hp))
  · show prioSorted s.prio (te12 s).readytorun
    rw [(te12_proj s).1, te11_merge s hpend,
      (mergepending_proj _).2.2.2.2.2.2.2.2.1]
    have hs10 : prioSorted (te10 s).prio (te10 s).readytorun := by
      rw [hprio10, hready10]
      rw [hr] at hsort
      exact (List.pairwise_cons.mp hsort).2
    have hf := foldl_mergeOne_sorted (te10 s).pending (te10 s) hs10
    rw [(foldl_mergeOne_frame _ _).2.1, hprio10] at hf
    exact hf

/-- Witness for C4 at the concrete scenario state. -/
theorem task_exit_drains_pending_witness :
    exS.readytorun = 1 :: 2 :: [] ∧ WF exS ∧
    prioSorted exS.prio exS.readytorun ∧ exS.pending ≠ [] ∧
    (te11 exS = sched_mergepending (te10 exS) ∧
     (te10 exS).pending = exS.pending ∧
     (task_exit exS).2.pending = [] ∧
     (∀ p ∈ exS.pending, p ∈ (task_exit exS).2.readytorun) ∧
     prioSorted exS.prio (task_exit exS).2.readytorun) :=
  ⟨rfl, by unfold WF; decide, by unfold prioSorted; decide, by decide,
    task_exit_drains_pending exS 1 2 [] rfl (by unfold WF; decide)
      (by unfold prioSorted; decide) (by decide)⟩

/-- C1: immediately after task_exit returns, exactly one TCB in the whole
system has scheduling state RUNNING, including when the pending merge
changed the ready-to-run head after the promotion step. -/
theorem task_exit_unique_running (s : Kstate) (d n : Nat) (rest : List Nat)
    (hr : s.readytorun = d :: n :: rest) (hwf : WF s)
    (_hd : s.st d = TState.Running)
    (ho : ∀ p ∈ s.pids, p ≠ d → s.st p ≠ TState.Running) :
    ∃! p, p ∈ (task_exit s).2.pids ∧ (task_exit s).2.st p = TState.Running := by
  obtain ⟨hdn, hdni, hdpids, hnpids, hdp, hdi, hpnr, hpp, hpnd⟩ :=
    WF_head_facts s d n rest hr hwf
  have h10 := te10_eq s d n rest hr hdn hdi
  have hready10 : (te10 s).readytorun = n :: rest := by rw [h10]
  have hpids10 : (te10 s).pids = s.pids := (te10_proj s).2.1
  have hpend10 : (te10 s).pending = s.pending := (te10_proj s).1
  have hstn : (te10 s).st n = TState.Running := by
    rw [h10]
    simp
  have hsto : ∀ q ∈ s.pids, q ≠ n → (te10 s).st q ≠ TState.Running := by
    intro q hq hqn
    rw [h10]
    by_cases hqd : q = d
    · simp [hqn, hqd, hdn]
    · simp only [hqn, hqd, if_false]
      exact ho q hq hqd
  have hfin_pids : (te12 s).pids = s.pids := by
    rw [(te12_proj s).2.2.2.2.1]
    by_cases hp : s.pending = []
    · rw [te11_nil s hp, hpids10]
    · rw [te11_merge s hp, (mergepending_proj _).2.1, hpids10]
  have hfin : ∃ h2, h2 ∈ s.pids ∧ (te12 s).st h2 = TState.Running ∧
      ∀ q ∈ s.pids, q ≠ h2 → (te12 s).st q ≠ TState.Running := by
    rw [(te12_proj s).2.1]
    by_cases hp : s.pending = []
    · rw [te11_nil s hp]
      exact ⟨n, hnpids, hstn, hsto⟩
    · rw [te11_merge s hp]
      have mp := mergepending_proj (te10 s)
      have hFpids : ((te10 s).pending.foldl mergeOne (te10 s)).pids = s.pids := by
        rw [(foldl_mergeOne_frame _ _).1, hpids10]
      obtain ⟨h2, t2, _, h2p, h2run, h2o⟩ :=
        foldl_mergeOne_inv (te10 s).pending (te10 s) n rest hready10
          (by rw [hpids10]; exact hnpids) hstn (by rw [hpids10]; exact hsto)
          (by rw [hpend10, hpids10]; exact hpp)
          (by
            rw [hpend10, hready10]
            intro p hp2 hm
            exact hpnr p hp2 (by rw [hr]; exact List.mem_cons_of_mem d hm))
          (by rw [hpend10]; exact hpnd)
      refine ⟨h2, by rw [hFpids] at h2p; exact h2p,
        by rw [mp.2.2.2.2.2.2.2.2.2]; exact h2run, ?_⟩
      intro q hq hqn2
      rw [mp.2.2.2.2.2.2.2.2.2]
      exact h2o q (by rw [hFpids]; exact hq) hqn2
  obtain ⟨h2, h2p, h2run, h2o⟩ := hfin
  show ∃! p, p ∈ (te12 s).pids ∧ (te12 s).st p = TState.Running
  rw [hfin_pids]
  refine ⟨h2, ⟨h2p, h2run⟩, ?_⟩
  intro q hq
  by_contra hne
  exact h2o q hq.1 hne hq.2

/-- Witness for C1 at the concrete scenario state (the merge does change
the head there: C outranks the promoted B). -/
theorem task_exit_unique_running_witness :
    exS.readytorun = 1 :: 2 :: [] ∧ WF exS ∧
    exS.st 1 = TState.Running ∧
    (∀ p ∈ exS.pids, p ≠ 1 → exS.st p ≠ TState.Running) ∧
    (∃! p, p ∈ (task_exit exS).2.pids ∧
      (task_exit exS).2.st p = TState.Running) :=
  ⟨rfl, by unfold WF; decide, rfl, by decide,
    task_exit_unique_running exS 1 2 [] rfl (by unfold WF; decide) rfl
      (by decide)⟩

/-- C8: heap-lock guard order.  The exiting TCB's lock count is
incremented first, while the heap lock is still free; the lock is then
acquired and immediately released with no scheduler-state mutation in
between; the exiting TCB is removed from the ready-to-run queue only
after the release; and at no later point of the routine is the heap lock
held. -/
theorem task_exit_heap_guard_order (s : Kstate) (d n : Nat) (rest : List Nat)
    (hr : s.readytorun = d :: n :: rest) (hwf : WF s)
    (hheap : s.heapHeld = false) :
    ((te1 s).lk d = s.lk d + 1 ∧ (te1 s).heapHeld = false) ∧
    ((te2 s).heapHeld = true ∧
     (te2 s).readytorun = (te1 s).readytorun ∧ (te2 s).st = (te1 s).st ∧
     (te2 s).lk = (te1 s).lk ∧ (te2 s).pending = (te1 s).pending ∧
     (te2 s).inactive = (te1 s).inactive) ∧
    ((te3 s).heapHeld = false ∧
     (te3 s).readytorun = (te2 s).readytorun ∧ (te3 s).st = (te2 s).st ∧
     (te3 s).lk = (te2 s).lk ∧ (te3 s).pending = (te2 s).pending ∧
     (te3 s).inactive = (te2 s).inactive) ∧
    (d ∈ (te3 s).readytorun ∧ d ∉ (te4 s).readytorun) ∧
    ((te4 s).heapHeld = false ∧ (te5 s).heapHeld = false ∧
     (te6 s).heapHeld = false ∧ (te7 s).heapHeld = false ∧
     (te8 s).heapHeld = false ∧ (te9 s).heapHeld = false ∧
     (te10 s).heapHeld = false ∧ (te11 s).heapHeld = false ∧
     (te12 s).heapHeld = false) := by
  obtain ⟨_, hdni, _, _, _, _, _, _, _⟩ := WF_head_facts s d n rest hr hwf
  have h11 : (te11 s).heapHeld = false := by
    by_cases hp : s.pending = []
    · rw [te11_nil s hp]
      exact (te10_proj s).2.2.2.2.2
    · rw [te11_merge s hp, (mergepending_proj _).2.2.2.2.2.2.1]
      exact (te10_proj s).2.2.2.2.2
  refine ⟨⟨?_, ?_⟩, ⟨rfl, rfl, rfl, rfl, rfl, rfl⟩,
    ⟨rfl, rfl, rfl, rfl, rfl, rfl⟩, ⟨?_, ?_⟩,
    ⟨rfl, rfl, rfl, rfl, rfl, rfl, (te10_proj s).2.2.2.2.2, h11,
      (te12_proj s).2.2.2.2.2.2.2.1.trans h11⟩⟩
  · unfold te1 te0 this_task
    simp [hr, bump, List.headD_cons]
  · show s.heapHeld = false
    exact hheap
  · show d ∈ s.readytorun
    rw [hr]
    exact List.mem_cons_self d (n :: rest)
  · unfold te4 te3 te2 te1 te0 this_task mm_takesemaphore mm_givesemaphore
      sched_removereadytorun
    simp only [hr, List.headD_cons, List.erase_cons_head]
    exact hdni

/-- Witness for C8 at the concrete scenario state. -/
theorem task_exit_heap_guard_order_witness :
    exS.readytorun = 1 :: 2 :: [] ∧ WF exS ∧ exS.heapHeld = false ∧
    (((te1 exS).lk 1 = exS.lk 1 + 1 ∧ (te1 exS).heapHeld = false) ∧
     ((te2 exS).heapHeld = true ∧
      (te2 exS).readytorun = (te1 exS).readytorun ∧
      (te2 exS).st = (te1 exS).st ∧ (te2 exS).lk = (te1 exS).lk ∧
      (te2 exS).pending = (te1 exS).pending ∧
      (te2 exS).inactive = (te1 exS).inactive) ∧
     ((te3 exS).heapHeld = false ∧
      (te3 exS).readytorun = (te2 exS).readytorun ∧
      (te3 exS).st = (te2 exS).st ∧ (te3 exS).lk = (te2 exS).lk ∧
      (te3 exS).pending = (te2 exS).pending ∧
      (te3 exS).inactive = (te2 exS).inactive) ∧
     (1 ∈ (te3 exS).readytorun ∧ 1 ∉ (te4 exS).readytorun) ∧
     ((te4 exS).heapHeld = false ∧ (te5 exS).heapHeld = false ∧
      (te6 exS).heapHeld = false ∧ (te7 exS).heapHeld = false ∧
      (te8 exS).heapHeld = false ∧ (te9 exS).heapHeld = false ∧
      (te10 exS).heapHeld = false ∧ (te11 exS).heapHeld = false ∧
      (te12 exS).heapHeld = false)) :=
  ⟨rfl, by unfold WF; decide, rfl,
    task_exit_heap_guard_order exS 1 2 [] rfl (by unfold WF; decide) rfl⟩

/-- C9: the exiting TCB's preemption lock count is incremented exactly
once, before the heap-lock guard, and never decremented by task_exit:
at every later step, including the moment the finalizer is invoked
(after te8) and through the final decrement (te12, which targets the
promoted TCB, not the exiting one), it equals its entry value plus one. -/
theorem task_exit_exiting_lock_held (s : Kstate) (d n : Nat) (rest : List Nat)
    (hr : s.readytorun = d :: n :: rest) (hwf : WF s) :
    (te1 s).lk d = s.lk d + 1 ∧ (te2 s).lk d = s.lk d + 1 ∧
    (te3 s).lk d = s.lk d + 1 ∧ (te4 s).lk d = s.lk d + 1 ∧
    (te5 s).lk d = s.lk d + 1 ∧ (te6 s).lk d = s.lk d + 1 ∧
    (te7 s).lk d = s.lk d + 1 ∧ (te8 s).lk d = s.lk d + 1 ∧
    (te9 s).lk d = s.lk d + 1 ∧ (te10 s).lk d = s.lk d + 1 ∧
    (te11 s).lk d = s.lk d + 1 ∧ (te12 s).lk d = s.lk d + 1 := by
  obtain ⟨hdn, _, _, _, _, hdi, _, _, _⟩ := WF_head_facts s d n rest hr hwf
  have h10 := te10_eq s d n rest hr hdn hdi
  have e1 : (te1 s).lk d = s.lk d + 1 := by
    unfold te1 te0 this_task
    simp [hr, bump, List.headD_cons]
  have e6 : (te6 s).lk d = s.lk d + 1 := by
    unfold te6 te5 te4 te3 te2 te1 te0 this_task mm_takesemaphore
      mm_givesemaphore sched_removereadytorun
    simp [hr, bump, List.headD_cons, List.erase_cons_head, hdn]
  have e10 : (te10 s).lk d = s.lk d + 1 := by
    rw [h10]
    simp
  have hlkr : (te11 s).lk = (te10 s).lk ∧ (te11 s).rtcb = (te10 s).rtcb := by
    by_cases hp : s.pending = []
    · rw [te11_nil s hp]
      exact ⟨rfl, rfl⟩
    · rw [te11_merge s hp]
      exact ⟨(mergepending_proj _).2.2.2.1, (mergepending_proj _).2.2.2.2.2.2.2.1⟩
  have e11 : (te11 s).lk d = s.lk d + 1 := by
    rw [hlkr.1]
    exact e10
  have e12 : (te12 s).lk d = s.lk d + 1 := by
    rw [(te12_proj s).2.2.2.2.2.2.2.2.1, hlkr.1, hlkr.2, h10]
    simp [drop1, hdn]
  exact ⟨e1, e1, e1, e1, e1, e6, e6, e6, e6, e10, e11, e12⟩

/-- Witness for C9 at the concrete scenario state. -/
theorem task_exit_exiting_lock_held_witness :
    exS.readytorun = 1 :: 2 :: [] ∧ WF exS ∧
    ((te1 exS).lk 1 = exS.lk 1 + 1 ∧ (te2 exS).lk 1 = exS.lk 1 + 1 ∧
     (te3 exS).lk 1 = exS.lk 1 + 1 ∧ (te4 exS).lk 1 = exS.lk 1 + 1 ∧
     (te5 exS).lk 1 = exS.lk 1 + 1 ∧ (te6 exS).lk 1 = exS.lk 1 + 1 ∧
     (te7 exS).lk 1 = exS.lk 1 + 1 ∧ (te8 exS).lk 1 = exS.lk 1 + 1 ∧
     (te9 exS).lk 1 = exS.lk 1 + 1 ∧ (te10 exS).lk 1 = exS.lk 1 + 1 ∧
     (te11 exS).lk 1 = exS.lk 1 + 1 ∧ (te12 exS).lk 1 = exS.lk 1 + 1) :=
  ⟨rfl, by unfold WF; decide,
    task_exit_exiting_lock_held exS 1 2 [] rfl (by unfold WF; decide)⟩

/-- C10: the finalizer runs entirely inside the transient window: at the
point of the task_terminate call (after te8) the newly selected head n is
READY_TO_RUN, the exiting TCB d is in the blocked set with reason
INACTIVE, and no TCB in the system is RUNNING; this still holds right
after the finalizer returns (after te9), before the promotion step. -/
theorem task_exit_finalizer_in_window (s : Kstate) (d n : Nat)
    (rest : List Nat) (hr : s.readytorun = d :: n :: rest) (hwf : WF s)
    (_hd : s.st d = TState.Running)
    (ho : ∀ p ∈ s.pids, p ≠ d → s.st p ≠ TState.Running) :
    (te8 s).st n = TState.ReadyToRun ∧
    (te8 s).st d = TState.Inactive ∧
    d ∈ (te8 s).inactive ∧
    (∀ p ∈ s.pids, (te8 s).st p ≠ TState.Running) ∧
    (∀ p ∈ s.pids, (te9 s).st p ≠ TState.Running) := by
  obtain ⟨hdn, _, _, _, _, _, _, _, _⟩ := WF_head_facts s d n rest hr hwf
  have h8 : ∀ q, (te8 s).st q = if q = d then TState.Inactive
      else if q = n then TState.ReadyToRun else s.st q := by
    intro q
    unfold te8 te7 te6 te5 te4 te3 te2 te1 te0 this_task mm_takesemaphore
      mm_givesemaphore sched_removereadytorun sched_addblocked
    simp only [hr, List.headD_cons, List.erase_cons_head]
    simp only [setSt]
    by_cases hqd : q = d
    · simp [hqd, hdn]
    · by_cases hqn : q = n <;> simp [setSt, hqd, hqn, Ne.symm hdn]
  have h9 : ∀ q, (te9 s).st q = if q = d then TState.Terminated
      else if q = n then TState.ReadyToRun else s.st q := by
    intro q
    unfold te9 te8 te7 te6 te5 te4 te3 te2 te1 te0 this_task mm_takesemaphore
      mm_givesemaphore sched_removereadytorun sched_addblocked task_terminate
    simp only [hr, List.headD_cons, List.erase_cons_head]
    simp only [setSt]
    by_cases hqd : q = d
    · simp [hqd, hdn]
    · by_cases hqn : q = n <;> simp [setSt, hqd, hqn, Ne.symm hdn]
  have h8i : (te8 s).inactive = s.inactive ++ [d] := by
    unfold te8 te7 te6 te5 te4 te3 te2 te1 te0 this_task mm_takesemaphore
      mm_givesemaphore sched_removereadytorun sched_addblocked
    simp [hr, List.headD_cons]
  refine ⟨?_, ?_, ?_, ?_, ?_⟩
  · rw [h8 n]
    simp [Ne.symm hdn]
  · rw [h8 d]
    simp
  · rw [h8i]
    simp
  · intro p hp
    rw [h8 p]
    by_cases hpd : p = d
    · simp [hpd]
    · by_cases hpn : p = n
      · simp [hpd, hpn, Ne.symm hdn]
      · simp only [hpd, hpn, if_false]
        exact ho p hp hpd
  · intro p hp
    rw [h9 p]
    by_cases hpd : p = d
    · simp [hpd]
    · by_cases hpn : p = n
      · simp [hpd, hpn, Ne.symm hdn]
      · simp only [hpd, hpn, if_false]
        exact ho p hp hpd

/-- Witness for C10 at the concrete scenario state. -/
theorem task_exit_finalizer_in_window_witness :
    exS.readytorun = 1 :: 2 :: [] ∧ WF exS ∧ exS.st 1 = TState.Running ∧
    (∀ p ∈ exS.pids, p ≠ 1 → exS.st p ≠ TState.Running) ∧
    ((te8 exS).st 2 = TState.ReadyToRun ∧
     (te8 exS).st 1 = TState.Inactive ∧
     1 ∈ (te8 exS).inactive ∧
     (∀ p ∈ exS.pids, (te8 exS).st p ≠ TState.Running) ∧
     (∀ p ∈ exS.pids, (te9 exS).st p ≠ TState.Running)) :=
  ⟨rfl, by unfold WF; decide, rfl, by decide,
    task_exit_finalizer_in_window exS 1 2 [] rfl (by unfold WF; decide)
      rfl (by decide)⟩

end TizenRTTaskExit
